import Mathlib

/-!
Shallow embedding of `python/paddle/fluid/contrib/slim/prune/prune_strategy.py`
(classes `SensitivePruneStrategy` and `PruneStrategy`) and proofs about the
structural pruning propagation, the sensitivity sweep, the ratio selector and
the batch-end trigger.

Tensors are modelled as finitely branching trees of rational leaves (the numpy
arrays of the source); Python dicts are modelled as insertion-ordered
association lists; the mutable state of a strategy object (tensor scope,
parameter shape descriptors, backup map) is threaded explicitly.  Fallible
Python code (attribute errors, missing variables) is modelled with `Option`.
-/

namespace PruneSpec

/-- Python dict lookup: the binding of the key (keys are unique). -/
def alookup : List (String × α) → String → Option α
  | [], _ => none
  | p :: m, k => if p.1 = k then some p.2 else alookup m k

/-- Python dict assignment `m[k] = v`: overwrite in place if the key exists,
append otherwise (insertion order preserved, as for a Python dict). -/
def aupdate : List (String × α) → String → α → List (String × α)
  | [], k, v => [(k, v)]
  | p :: m, k, v => if p.1 = k then (k, v) :: m else p :: aupdate m k v

/-- A numpy array: a finitely branching tree whose leaves are the scalars. -/
inductive NTensor where
  | leaf (x : ℚ)
  | node (ts : List NTensor)
deriving Repr

/-- `numpy.delete` along the outermost dimension: keep the positions whose
index is not listed in `idxs`. -/
def pyDelete (l : List α) (idxs : List ℕ) : List α :=
  (l.enum.filter (fun p => decide (p.1 ∉ idxs))).map (fun p => p.2)

mutual

/-- Modelled from the spec: the Pruner capability `shrink_tensor(values,
indices, axis, lazy) → reduced_values` (`Pruner.prune_tensor` is not part of
this file's source); per the spec it drops the given indices along the given
axis of the array.  Axis `0` deletes outer slices, axis `a+1` recurses into
every slice. -/
def npDelete (idxs : List ℕ) : ℕ → NTensor → NTensor
  | _, NTensor.leaf x => NTensor.leaf x
  | 0, NTensor.node ts => NTensor.node (pyDelete ts idxs)
  | a + 1, NTensor.node ts => NTensor.node (npDeleteList idxs a ts)

/-- `npDelete` mapped over a list of slices. -/
def npDeleteList (idxs : List ℕ) (a : ℕ) : List NTensor → List NTensor
  | [] => []
  | t :: ts => npDelete idxs a t :: npDeleteList idxs a ts

end

/-- `numpy.ndarray.shape` of a tensor (ragged trees report the first slice). -/
def tshape : NTensor → List ℕ
  | NTensor.leaf _ => []
  | NTensor.node [] => [0]
  | NTensor.node (t :: ts) => (ts.length + 1) :: tshape t

mutual

/-- Elementwise product of two tensors of the same shape (the
`p * zeros_mask` expression of `PruneStrategy.on_batch_end`). -/
def tmul : NTensor → NTensor → NTensor
  | NTensor.leaf a, NTensor.leaf b => NTensor.leaf (a * b)
  | NTensor.node as, NTensor.node bs => NTensor.node (tmulList as bs)
  | NTensor.leaf a, NTensor.node _ => NTensor.leaf a
  | NTensor.node as, NTensor.leaf _ => NTensor.node as

/-- `tmul` zipped over lists of slices. -/
def tmulList : List NTensor → List NTensor → List NTensor
  | a :: as, b :: bs => tmul a b :: tmulList as bs
  | _, _ => []

end

/-- An operation of the computation graph: `op.idx`, `op.type`, and the
flattened input/output variable names (what `_inputs`/`_outputs` return). -/
structure Oper where
  idx : ℕ
  type : String
  inputs : List String
  outputs : List String
deriving Repr, DecidableEq

/-- A graph variable: its name, whether it is a `Parameter`, and the shape
held by its descriptor when the graph is loaded. -/
structure GVar where
  name : String
  isParam : Bool
  shape : List ℕ
deriving Repr, DecidableEq

/-- The computation graph: operations and variables (`graph.ops()` /
`graph.get_var`). -/
structure Graph where
  ops : List Oper
  vars : List GVar
deriving Repr

/-- `graph.get_var(name)`. -/
def Graph.getVar (g : Graph) (n : String) : Option GVar :=
  g.vars.find? (fun v => v.name == n)

/-- `graph.pre_ops(op)`: operations producing one of `op`'s inputs
(framework code outside this file's source; modelled from the spec's
"recursively walk backward through producer operations"). -/
def Graph.preOps (g : Graph) (op : Oper) : List Oper :=
  g.ops.filter (fun p => p.outputs.any (fun o => op.inputs.contains o))

/-- The pluggable Pruner collaborator: `cal_pruned_idx(name, array, ratio) →
(indices, axis)` and `prune_tensor(array, indices, axis, lazy)`. -/
structure Pruner where
  cal : String → NTensor → ℚ → List ℕ × ℕ
  pruneTensor : NTensor → List ℕ → ℕ → Bool → NTensor

/-- Modelled from the spec: a Pruner whose `prune_tensor` drops the given
indices along the given axis ("compute reduced tensor via the Pruner (drop
indices along the axis)"); the index-choosing policy `cal` stays pluggable. -/
def mkPruner (c : String → NTensor → ℚ → List ℕ × ℕ) : Pruner :=
  { cal := c, pruneTensor := fun t i a _ => npDelete i a t }

/-- The mutable state a `SensitivePruneStrategy` touches: the tensor scope,
the parameters' shape descriptors (`param.desc`), the `self.backup` dict, and
a ghost log recording every shrink call as (name, pruned indices, axis). -/
structure PState where
  scope : List (String × NTensor)
  shapes : List (String × List ℕ)
  backup : List (String × NTensor)
  log : List (String × List ℕ × ℕ)
deriving Repr

/-- `SensitivePruneStrategy._prune_parameter`: look the tensor up in the
scope, ask the pruner for indices and axis, shrink, set the shape descriptor,
snapshot into `self.backup` when `lazy`, write the reduced tensor back.
Returns the pruned indices and axis with the new state; `none` models the
Python exception when the variable is absent from the scope. -/
def prune_parameter (pr : Pruner) (st : PState) (name : String) (r : ℚ)
    (lazy : Bool) : Option (PState × List ℕ × ℕ) :=
  match alookup st.scope name with
  | none => none
  | some t =>
    let ia := pr.cal name t r
    let pruned := pr.pruneTensor t ia.1 ia.2 lazy
    let st1 : PState :=
      { st with shapes := aupdate st.shapes name (tshape pruned) }
    let st2 : PState :=
      if lazy then { st1 with backup := aupdate st1.backup name t } else st1
    some ({ st2 with
              scope := aupdate st2.scope name pruned,
              log := st2.log ++ [(name, ia.1, ia.2)] },
          ia.1, ia.2)

/-- `SensitivePruneStrategy._prune_parameter_by_idx`: as `prune_parameter`
but with the indices and axis supplied by the caller. -/
def prune_parameter_by_idx (pr : Pruner) (st : PState) (name : String)
    (idxs : List ℕ) (axis : ℕ) (lazy : Bool) : Option PState :=
  match alookup st.scope name with
  | none => none
  | some t =>
    let pruned := pr.pruneTensor t idxs axis lazy
    let st1 : PState :=
      { st with shapes := aupdate st.shapes name (tshape pruned) }
    let st2 : PState :=
      if lazy then { st1 with backup := aupdate st1.backup name t } else st1
    some { st2 with
             scope := aupdate st2.scope name pruned,
             log := st2.log ++ [(name, idxs, axis)] }

/-- `_get_next_unvisited_op`: for each output of `top`, every not-yet-visited
operation consuming it, in the source's nested-loop order (`None` when
empty is rendered as `[]`; the caller tests emptiness). -/
def nextUnvisitedOps (g : Graph) (visited : List ℕ) (top : Oper) :
    List Oper :=
  (top.outputs.map (fun o =>
      g.ops.filter (fun op =>
        op.inputs.contains o && !(visited.contains op.idx)))).flatten

/-- One-past bound on iterations of the `_forward_search_related_op` while
loop on graph `g` (each iteration visits a new op or pops the stack; pushes
are bounded by the op count). -/
def fsFuel (g : Graph) : ℕ :=
  (g.ops.length + 1) * (g.ops.length + 2)

/-- The explicit-stack DFS loop of `_forward_search_related_op`: the top of
the stack is appended to the visit path the first time it is seen; expansion
stops at a `conv2d` not consuming the triggering parameter and at `mul`. -/
def fsLoop (g : Graph) (paramName : String) :
    ℕ → List Oper → List ℕ → List Oper → List Oper
  | 0, _, _, path => path
  | fuel + 1, stack, visited, path =>
    match stack.getLast? with
    | none => path
    | some top =>
      let path1 := if visited.contains top.idx then path else path ++ [top]
      let visited1 :=
        if visited.contains top.idx then visited else visited ++ [top.idx]
      let stop : Bool :=
        (top.type == "conv2d" && !(top.inputs.contains paramName)) ||
          top.type == "mul"
      let nexts := if stop then [] else nextUnvisitedOps g visited1 top
      if nexts.isEmpty then
        fsLoop g paramName fuel stack.dropLast visited1 path1
      else
        fsLoop g paramName fuel (stack ++ nexts) visited1 path1

/-- `SensitivePruneStrategy._forward_search_related_op(graph, param)`:
depth-first forward traversal from all operations consuming `param`,
returning the first-visited order. -/
def forward_search_related_op (g : Graph) (paramName : String) : List Oper :=
  fsLoop g paramName (fsFuel g)
    (g.ops.filter (fun op => op.inputs.contains paramName)) [] []

/-- Python list indexing `l[i]` for `i = idx - 1` with `idx : ℕ`: when
`idx = 0` this is `l[-1]`, the last element. -/
def pyPrev (l : List α) (idx : ℕ) : Option α :=
  if idx = 0 then l.getLast? else l.get? (idx - 1)

/-- Fold a state-transforming step over a list inside `Option` (a Python
`for` loop whose body may raise). -/
def ofoldl (f : PState → α → Option PState) (st : PState) (l : List α) :
    Option PState :=
  l.foldl (fun acc a => acc.bind (fun s => f s a)) (some st)

/-- The body of the loops `for param_name in self._inputs(op): if
isinstance(graph.get_var(param_name), Parameter): self._prune_parameter_by_idx
(...)` shared by `_prune_add_op` and `_pruning_ralated_op`: prune the input
when it is a `Parameter`, skip it otherwise. -/
def pruneParamInput (pr : Pruner) (g : Graph) (idxs : List ℕ) (axis : ℕ)
    (lazy : Bool) (s : PState) (pname : String) : Option PState :=
  match g.getVar pname with
  | some v =>
    if v.isParam then
      prune_parameter_by_idx pr s pname idxs axis lazy
    else
      some s
  | none => some s

/-- The body of `_prune_add_op`'s loop over `graph.pre_ops(op)`: skip
excluded producers, prune a `conv2d` producer's parameters along axis 0, and
recurse (through `rec`) into an `elementwise_add` producer. -/
def addPreStep (pr : Pruner) (g : Graph)
    (rec : PState → Oper → Option PState) (prunedIdxs : List ℕ)
    (excludes : List ℕ) (lazy : Bool) (s : PState) (preOp : Oper) :
    Option PState :=
  if excludes.contains preOp.idx then
    some s
  else
    (if preOp.type == "conv2d" then
        ofoldl (pruneParamInput pr g prunedIdxs 0 lazy) s preOp.inputs
      else
        some s).bind
      (fun s1 =>
        if preOp.type == "elementwise_add" then rec s1 preOp else some s1)

/-- `SensitivePruneStrategy._prune_add_op`: prune every `Parameter` input of
the `elementwise_add` along axis 0 with the inherited indices, then walk the
producer operations (skipping the excluded indices), pruning `conv2d`
parameter inputs along axis 0 and recursing into further `elementwise_add`
producers.  The `fuel` bounds the recursion depth (the source recursion has
no visited set and would not terminate on a cyclic graph; `none` models
that). -/
def prune_add_op (pr : Pruner) (g : Graph) :
    ℕ → PState → Oper → List ℕ → List ℕ → Bool → Option PState
  | 0, _, _, _, _, _ => none
  | fuel + 1, st, op, prunedIdxs, excludes, lazy =>
    (ofoldl (pruneParamInput pr g prunedIdxs 0 lazy) st op.inputs).bind
      (fun st1 =>
        ofoldl
          (addPreStep pr g
            (fun s preOp => prune_add_op pr g fuel s preOp prunedIdxs
              excludes lazy)
            prunedIdxs excludes lazy)
          st1 (g.preOps op))

/-- The shape the source reads from a variable: a `Parameter`'s mutable
descriptor (tracked in `PState.shapes`), otherwise the static graph shape. -/
def varShape (g : Graph) (st : PState) (n : String) : Option (List ℕ) :=
  match alookup st.shapes n with
  | some s => some s
  | none => (g.getVar n).map (fun v => v.shape)

/-- Accumulator of `_pruning_ralated_op`'s loop: the state plus the
`pruned_idxs` and `corrected_idxs` locals (both start as `None`). -/
structure PropAcc where
  st : PState
  prunedIdxs : Option (List ℕ)
  correctedIdxs : Option (List ℕ)

/-- One iteration of the `for idx, op in enumerate(related_ops)` loop of
`SensitivePruneStrategy._pruning_ralated_op`.  The `batch_norm` arm of the
source compares the *builtin* `type` function against the string
`"batch_norm"` (`elif type == "batch_norm":`), which is never true, so a
`batch_norm` operation falls through every arm and changes nothing. -/
def propStep (pr : Pruner) (g : Graph) (related : List Oper)
    (paramName : String) (r : ℚ) (lazy : Bool) (acc : PropAcc)
    (idx : ℕ) (op : Oper) : Option PropAcc :=
  if op.type == "conv2d" then
    if op.inputs.contains paramName then
      (prune_parameter pr acc.st paramName r lazy).map
        (fun res => ⟨res.1, some res.2.1, some res.2.1⟩)
    else
      match acc.correctedIdxs with
      | none => none
      | some corrected =>
        (ofoldl (pruneParamInput pr g corrected 1 lazy) acc.st
            op.inputs).map
          (fun st => ⟨st, acc.prunedIdxs, acc.correctedIdxs⟩)
  else if op.type == "elementwise_add" then
    match pyPrev related idx, acc.correctedIdxs with
    | some lastOp, some corrected =>
      (prune_add_op pr g (g.ops.length + 1) acc.st op corrected
          [lastOp.idx] lazy).map
        (fun st => ⟨st, acc.prunedIdxs, acc.correctedIdxs⟩)
    | _, _ => none
  else if op.type == "mul" then
    match acc.correctedIdxs with
    | none => none
    | some corrected =>
      let fp : Option GVar × Option GVar :=
        op.inputs.foldl
          (fun pa n =>
            match g.getVar n with
            | some v => if v.isParam then (some v, pa.2) else (pa.1, some v)
            | none => (pa.1, none))
          (none, none)
      match fp.1, fp.2 with
      | some fcParam, some fcInput =>
        match (varShape g acc.st fcInput.name).bind (fun s => s.get? 2),
            (varShape g acc.st fcInput.name).bind (fun s => s.get? 3) with
        | some h, some w =>
          let fm := h * w
          let expanded :=
            (corrected.map (fun i =>
              (List.range fm).map (fun j => j + i * fm))).flatten
          (prune_parameter_by_idx pr acc.st fcParam.name expanded 0
              lazy).map
            (fun st => ⟨st, acc.prunedIdxs, some expanded⟩)
        | _, _ => none
      | _, _ => none
  else if op.type == "concat" then
    match pyPrev related idx, acc.prunedIdxs with
    | some lastOp, some prunedIdxs =>
      let concatIdx : Option ℕ :=
        lastOp.outputs.foldl
          (fun ci o =>
            if op.inputs.contains o then some (op.inputs.indexOf o) else ci)
          none
      match concatIdx with
      | none => none
      | some ci =>
        ((List.range ci).foldl
            (fun acc2 j =>
              acc2.bind (fun a =>
                (op.inputs.get? j).bind (fun n =>
                  (varShape g acc.st n).bind (fun s =>
                    (s.get? 1).map (fun c => a + c)))))
            (some 0)).map
          (fun offset =>
            ⟨acc.st, acc.prunedIdxs,
             some (prunedIdxs.map (fun x => x + offset))⟩)
    | _, _ => none
  else
    some acc

/-- The `for idx, op in enumerate(related_ops)` loop of
`_pruning_ralated_op`, abstracted over the visit path `related`. -/
def propagateOver (pr : Pruner) (g : Graph) (related : List Oper)
    (paramName : String) (r : ℚ) (lazy : Bool) (st : PState) :
    Option PState :=
  (related.enum.foldl
      (fun acc iop =>
        acc.bind
          (fun a => propStep pr g related paramName r lazy a iop.1 iop.2))
      (some ⟨st, none, none⟩)).map
    (fun a => a.st)

/-- `SensitivePruneStrategy._pruning_ralated_op(graph, scope, param, ratio,
place, lazy)`: walk forward from the parameter, then thread
`pruned_idxs`/`corrected_idxs` through the visit path, shrinking every
dependent parameter. -/
def pruning_related_op (pr : Pruner) (g : Graph) (st : PState)
    (paramName : String) (r : ℚ) (lazy : Bool) : Option PState :=
  propagateOver pr g (forward_search_related_op g paramName) paramName r
    lazy st

/-- `SensitivePruneStrategy._prune_parameters`: prune each (param, ratio)
pair in turn. -/
def prune_parameters (pr : Pruner) (g : Graph) (st : PState)
    (pairs : List (String × ℚ)) (lazy : Bool) : Option PState :=
  pairs.foldl
    (fun acc p =>
      acc.bind (fun s => pruning_related_op pr g s p.1 p.2 lazy))
    (some st)

/-- One iteration of the restore loop of `_compute_sensitivities` (lines
75-77): `context.scope.find_var(param_name).get_tensor().set(backup[...])`;
`none` models the exception when the variable is gone from the scope. -/
def restoreStep (s : PState) (p : String × NTensor) : Option PState :=
  match alookup s.scope p.1 with
  | none => none
  | some _ => some { s with scope := aupdate s.scope p.1 p.2 }

/-- The restore loop of `_compute_sensitivities`: write every `self.backup`
snapshot back into the scope tensor of the same name.  The backup dict
itself is not modified by the source. -/
def restoreAll (st : PState) : Option PState :=
  ofoldl restoreStep st st.backup

/-- The ratio loop of `_compute_sensitivities` (`ratio = 1; while ratio > 0:
try ratio; ratio -= self.delta_rate`), as the list of ratios tried from a
given start value.  Arithmetic is exact (rational); a non-positive step, on
which the source loop would not terminate, yields `[]`. -/
def sweepFrom (d : ℚ) (r : ℚ) : List ℚ :=
  if hdr : 0 < d ∧ 0 < r then r :: sweepFrom d (r - d) else []
termination_by (⌈r / d⌉).toNat
decreasing_by
  have hd := hdr.1
  have hr := hdr.2
  have hq : 0 < r / d := div_pos hr hd
  have h1 : (1 : ℤ) ≤ ⌈r / d⌉ := by
    have := Int.ceil_pos.mpr hq
    omega
  have hsub : (r - d) / d = r / d - 1 := by
    field_simp
  rw [hsub, Int.ceil_sub_one]
  omega

/-- The ratio sequence tried by the sensitivity sweep for one parameter. -/
def sweepRatios (d : ℚ) : List ℚ :=
  sweepFrom d 1

/-- Fixed-point grid for exact binary64 arithmetic: an integer `k` stands
for the real value `k / 2^200`.  Every binary64 float of magnitude at least
`2^-148` (every value the ratio loop meets, by a huge margin) is an integer
multiple of `2^-200`, so on this grid the float subtraction
`ratio -= self.delta_rate` is the exact integer difference followed by
binary64 rounding. -/
def fpScale : ℕ := 2 ^ 200

/-- The binade of `k`: the largest `t` (up to 255, ample for this grid)
with `2^t ≤ k`. -/
def binadeExp (k : ℕ) : ℕ :=
  (List.range 256).foldl (fun best t => if 2 ^ t ≤ k then t else best) 0

/-- Round `k` to the nearest multiple of `2^u`, ties to the even
multiple. -/
def roundToMultiple (k u : ℕ) : ℕ :=
  let p := 2 ^ u
  let q := k / p
  let rem := k % p
  if 2 * rem < p then q * p
  else if p < 2 * rem then (q + 1) * p
  else if q % 2 = 0 then q * p else (q + 1) * p

/-- Round a grid value to the nearest IEEE binary64 float (53-bit
significand, round to nearest, ties to even), sign-symmetrically: locate
the binade `t = ⌊log2 |k|⌋` and round `|k|` to a multiple of `2^(t-52)`,
the unit in the last place on this grid.  Grid values below `2^-148` (never
produced by the loop) are already below one ulp of precision and are kept
as is. -/
def roundScaled (k : ℤ) : ℤ :=
  if k = 0 then 0
  else
    let a := k.natAbs
    let t := binadeExp a
    if t < 52 then k
    else
      let r := roundToMultiple a (t - 52)
      if k < 0 then -(r : ℤ) else (r : ℤ)

/-- The ratio loop of `_compute_sensitivities` under the source's binary64
float arithmetic, on the fixed-point grid: try `r` while `r > 0`, then
continue from the rounded difference `fl(r - d)`.  `fuel` bounds the
iteration count (any bound at least the trial count gives the loop's exact
output). -/
def floatSweepZ (d : ℤ) : ℕ → ℤ → List ℤ
  | 0, _ => []
  | fuel + 1, r =>
    if 0 < r then r :: floatSweepZ d fuel (roundScaled (r - d)) else []

/-- The binary64 value the Python literal `0.20` stores, on the grid:
round the grid point nearest `1/5` (integer division by 5 is `2^-200`-exact
here, far below the rounding granularity). -/
def fpFifth : ℤ :=
  roundScaled ((fpScale : ℤ) / 5)

/-- The binary64 value of the literal `0.25`, on the grid (exact). -/
def fpQuarter : ℤ :=
  roundScaled ((fpScale : ℤ) / 4)

/-- One parameter's row of `self.sensitivities`: its name and the two
parallel lists `pruned_percent` and `acc_loss`. -/
structure SensEntry where
  name : String
  percents : List ℚ
  losses : List ℚ
deriving Repr, DecidableEq

/-- The `no_loss_ratios` dict built by `_get_best_ratios`: for each table
entry in insertion order, for each `(ratio, loss)` pair of
`izip(pruned_percent, acc_loss)`, assign `no_loss_ratios[param] = ratio`
whenever `loss == 0` (later assignments overwrite earlier ones). -/
def noLossRatios (tbl : List SensEntry) : List (String × ℚ) :=
  tbl.foldl
    (fun acc e =>
      (e.percents.zip e.losses).foldl
        (fun acc2 rl =>
          if rl.2 = 0 then aupdate acc2 e.name rl.1 else acc2)
        acc)
    []

/-- `SensitivePruneStrategy._get_best_ratios`: the selected parameter names
and their ratios rescaled by `target_ratio / ratio_sum` (the numpy
expression `target * values / sum`; in this exact model division by a zero
sum yields 0 — the source has no explicit error path). -/
def get_best_ratios (target : ℚ) (tbl : List SensEntry) :
    List String × List ℚ :=
  let nl := noLossRatios tbl
  let s := (nl.map (fun p => p.2)).sum
  (nl.map (fun p => p.1), nl.map (fun p => target * p.2 / s))

/-- The body of `noLossRatios`' outer loop applied to one table entry. -/
def entryFold (acc : List (String × ℚ)) (e : SensEntry) :
    List (String × ℚ) :=
  (e.percents.zip e.losses).foldl
    (fun acc2 rl => if rl.2 = 0 then aupdate acc2 e.name rl.1 else acc2)
    acc

/-- The module-level names bound by the import statements at the top of
`prune_strategy.py` (its only imports): `izip` is not among them — the file
never imports it from `itertools`. -/
def moduleNames : List String :=
  ["Strategy", "Program", "program_guard", "Parameter", "layers", "np",
   "copy", "re"]

/-- Python name resolution inside `_get_best_ratios`: `some` when the name
is bound at module level, `none` (a NameError) otherwise. -/
def resolveName (n : String) : Option Unit :=
  if moduleNames.contains n then some () else none

/-- `_get_best_ratios` as it actually executes: processing any table entry
first evaluates `izip(...)` (line 82), resolving the name `izip`, which is
unbound in the module — a NameError; past the loop, line 87 reads
`self.target_ratio`, which `__init__` never assigns, modelled by the
`target` argument being `none` in the real program (an AttributeError).
`none` models the raised exception; the selection logic itself only runs
between those two failure points. -/
def get_best_ratios_run (target : Option ℚ) (tbl : List SensEntry) :
    Option (List String × List ℚ) :=
  Option.bind
    (tbl.foldl
      (fun acc e =>
        acc.bind
          (fun nl => (resolveName "izip").map (fun _ => entryFold nl e)))
      (some []))
    (fun nl =>
      target.map (fun t =>
        (nl.map (fun p => p.1),
         nl.map (fun p => t * p.2 / (nl.map (fun q => q.2)).sum))))

/-- `PruneStrategy._triger(context)`. -/
def triger (freq startEpoch endEpoch epochId batchId : ℕ) : Bool :=
  batchId % freq == 0 && (startEpoch ≤ epochId && epochId < endEpoch)

/-- The mask collaborator `self.pruner.prune(p)` of `PruneStrategy`
(pluggable; returns the elementwise zeros mask for a parameter). -/
structure MaskPruner where
  mask : String → NTensor → NTensor

/-- `PruneStrategy.on_batch_end(context)`: when `_triger` holds, every
parameter is replaced by itself multiplied elementwise with the pruner's
mask (the scratch program `p * zeros_mask; assign(...)` executed on the
scope); otherwise nothing changes. -/
def on_batch_end (mp : MaskPruner) (freq startEpoch endEpoch : ℕ)
    (epochId batchId : ℕ) (params : List (String × NTensor)) :
    List (String × NTensor) :=
  if triger freq startEpoch endEpoch epochId batchId then
    params.map (fun p => (p.1, tmul p.2 (mp.mask p.1 p.2)))
  else
    params

/-- One sensitivity-measurement trial on one parameter, as performed inside
the ratio loop of `_compute_sensitivities`: prune the parameter lazily
(propagating structurally), then run the restore loop over `self.backup`.
The metric measurement between the two steps reads no strategy state. -/
def sensitivityTrial (pr : Pruner) (g : Graph) (st : PState)
    (paramName : String) (r : ℚ) : Option PState :=
  (pruning_related_op pr g st paramName r true).bind restoreAll

/-! Concrete graphs and states used to settle the claims.  Channel counts,
index sets and tensor contents are parameters of the constructions, so the
claim theorems quantify over them. -/

/-- A 2-D tensor (matrix) as an `NTensor`: one node of rows of leaves. -/
def mat (rows : List (List ℚ)) : NTensor :=
  NTensor.node (rows.map (fun r => NTensor.node (r.map NTensor.leaf)))

/-- A pruner whose index policy always answers `(idxs, 0)` and whose
`prune_tensor` drops indices along the axis. -/
def constPruner (idxs : List ℕ) : Pruner :=
  mkPruner (fun _ _ _ => (idxs, 0))

/-- Claim C1 graph: `conv2d` (inputs `x`, `wp`, output `c`) feeding a
`batch_norm` whose inputs are, in flattened slot order, scale `alpha`,
shift `beta`, `mean`, `variance` and the activation `c`. -/
def bnGraph : Graph :=
  { ops :=
      [ { idx := 0, type := "conv2d", inputs := ["x", "wp"],
          outputs := ["c"] },
        { idx := 1, type := "batch_norm",
          inputs := ["alpha", "beta", "mean", "variance", "c"],
          outputs := ["y"] } ],
    vars :=
      [ { name := "x", isParam := false, shape := [1, 2, 4, 4] },
        { name := "wp", isParam := true, shape := [2, 2, 3, 3] },
        { name := "c", isParam := false, shape := [1, 2, 4, 4] },
        { name := "alpha", isParam := true, shape := [2] },
        { name := "beta", isParam := true, shape := [2] },
        { name := "mean", isParam := true, shape := [2] },
        { name := "variance", isParam := true, shape := [2] },
        { name := "y", isParam := false, shape := [1, 2, 4, 4] } ] }

/-- Scope for the C1 graph: the conv weight and the four per-channel
statistics tensors. -/
def bnState : PState :=
  { scope :=
      [ ("wp", mat [[1, 2], [3, 4]]),
        ("alpha", NTensor.node [NTensor.leaf 10, NTensor.leaf 11]),
        ("beta", NTensor.node [NTensor.leaf 20, NTensor.leaf 21]),
        ("mean", NTensor.node [NTensor.leaf 30, NTensor.leaf 31]),
        ("variance", NTensor.node [NTensor.leaf 40, NTensor.leaf 41]) ],
    shapes :=
      [ ("wp", [2, 2, 3, 3]), ("alpha", [2]), ("beta", [2]),
        ("mean", [2]), ("variance", [2]) ],
    backup := [], log := [] }

/-- Claim C3 graph family: a `conv2d` producing `cP`, a `concat` whose input
slots are `[cA, cB, cP]` (the pruned conv feeds slot 2), and a downstream
`conv2d` consuming the concatenated activation.  `chA` and `chB` are the
channel counts (dimension 1) of the two preceding slots. -/
def concatGraph (chA chB : ℕ) : Graph :=
  { ops :=
      [ { idx := 0, type := "conv2d", inputs := ["x", "wp"],
          outputs := ["cP"] },
        { idx := 1, type := "concat", inputs := ["cA", "cB", "cP"],
          outputs := ["cc"] },
        { idx := 2, type := "conv2d", inputs := ["cc", "w2"],
          outputs := ["y"] } ],
    vars :=
      [ { name := "x", isParam := false, shape := [1, 2, 4, 4] },
        { name := "wp", isParam := true, shape := [2, 2, 3, 3] },
        { name := "cA", isParam := false, shape := [1, chA, 4, 4] },
        { name := "cB", isParam := false, shape := [1, chB, 4, 4] },
        { name := "cP", isParam := false, shape := [1, 2, 4, 4] },
        { name := "cc", isParam := false, shape := [1, chA + chB + 2, 4, 4] },
        { name := "w2", isParam := true, shape := [3, chA + chB + 2, 3, 3] },
        { name := "y", isParam := false, shape := [1, 3, 4, 4] } ] }

/-- Scope for the C3 graph family, generic in the two weight tensors. -/
def concatState (wpT w2T : NTensor) : PState :=
  { scope := [("wp", wpT), ("w2", w2T)],
    shapes := [("wp", tshape wpT), ("w2", tshape w2T)],
    backup := [], log := [] }

/-- Claim C4 graph family: a `conv2d` whose output activation `c` (shape
`[1, ch, h, w]`) feeds a `mul` (fully connected) layer with weight `wfc`. -/
def fcGraph (ch h w : ℕ) : Graph :=
  { ops :=
      [ { idx := 0, type := "conv2d", inputs := ["x", "wp"],
          outputs := ["c"] },
        { idx := 1, type := "mul", inputs := ["c", "wfc"],
          outputs := ["y"] } ],
    vars :=
      [ { name := "x", isParam := false, shape := [1, 2, h, w] },
        { name := "wp", isParam := true, shape := [ch, 2, 3, 3] },
        { name := "c", isParam := false, shape := [1, ch, h, w] },
        { name := "wfc", isParam := true, shape := [ch * h * w, 10] },
        { name := "y", isParam := false, shape := [1, 10] } ] }

/-- Scope for the C4 graph family. -/
def fcState (wpT wfcT : NTensor) : PState :=
  { scope := [("wp", wpT), ("wfc", wfcT)],
    shapes := [("wp", tshape wpT), ("wfc", tshape wfcT)],
    backup := [], log := [] }

/-- Claim C5 graph family: `conv2d` (weight `w1`) → `elementwise_add`
(bias parameter `b`) → `conv2d` (weight `w2`). -/
def addGraph : Graph :=
  { ops :=
      [ { idx := 0, type := "conv2d", inputs := ["x", "w1"],
          outputs := ["c1"] },
        { idx := 1, type := "elementwise_add", inputs := ["c1", "b"],
          outputs := ["c2"] },
        { idx := 2, type := "conv2d", inputs := ["c2", "w2"],
          outputs := ["y"] } ],
    vars :=
      [ { name := "x", isParam := false, shape := [1, 2, 4, 4] },
        { name := "w1", isParam := true, shape := [2, 2, 3, 3] },
        { name := "c1", isParam := false, shape := [1, 2, 4, 4] },
        { name := "b", isParam := true, shape := [2] },
        { name := "c2", isParam := false, shape := [1, 2, 4, 4] },
        { name := "w2", isParam := true, shape := [3, 2, 3, 3] },
        { name := "y", isParam := false, shape := [1, 3, 4, 4] } ] }

/-- Scope for the C5 graph family, generic in the three tensors. -/
def addState (w1T bT w2T : NTensor) : PState :=
  { scope := [("w1", w1T), ("b", bT), ("w2", w2T)],
    shapes := [("w1", tshape w1T), ("b", tshape bT), ("w2", tshape w2T)],
    backup := [], log := [] }

/-- Claims C6/C7 graph family: a single `conv2d` consuming weight `w`. -/
def convGraph : Graph :=
  { ops :=
      [ { idx := 0, type := "conv2d", inputs := ["x", "w"],
          outputs := ["y"] } ],
    vars :=
      [ { name := "x", isParam := false, shape := [1, 2, 4, 4] },
        { name := "w", isParam := true, shape := [2, 1, 1, 1] },
        { name := "y", isParam := false, shape := [1, 2, 4, 4] } ] }

/-- Scope holding only the weight `w`. -/
def convState (wT : NTensor) : PState :=
  { scope := [("w", wT)], shapes := [("w", tshape wT)],
    backup := [], log := [] }

/-! Helper lemmas shared by the claim theorems. -/

theorem alookup_aupdate_self (m : List (String × α)) (k : String) (v : α) :
    alookup (aupdate m k v) k = some v := by
  induction m with
  | nil => simp [alookup, aupdate]
  | cons p m ih =>
    by_cases hp : p.1 = k
    · simp [alookup, aupdate, hp]
    · simp [alookup, aupdate, hp, ih]

theorem alookup_aupdate_ne (m : List (String × α)) {k k' : String} (v : α)
    (h : k' ≠ k) : alookup (aupdate m k' v) k = alookup m k := by
  induction m with
  | nil => simp [alookup, aupdate, h]
  | cons p m ih =>
    by_cases hp : p.1 = k'
    · simp [alookup, aupdate, hp, h]
    · by_cases hpk : p.1 = k
      · simp [alookup, aupdate, hp, hpk, Ne.symm h]
      · simp [alookup, aupdate, hp, hpk, ih]

theorem npDeleteList_length (idxs : List ℕ) (a : ℕ) (ts : List NTensor) :
    (npDeleteList idxs a ts).length = ts.length := by
  induction ts with
  | nil => rfl
  | cons t ts ih => simp [npDeleteList, ih]

theorem sweepFrom_pos {d r : ℚ} (hd : 0 < d) (hr : 0 < r) :
    sweepFrom d r = r :: sweepFrom d (r - d) := by
  rw [sweepFrom]
  simp [hd, hr]

theorem sweepFrom_nonpos {d r : ℚ} (hr : ¬ 0 < r) :
    sweepFrom d r = [] := by
  rw [sweepFrom]
  simp [hr]

theorem sweepFrom_all_pos {d : ℚ} (r : ℚ) :
    ∀ x ∈ sweepFrom d r, 0 < x := by
  induction r using (sweepFrom.induct d) with
  | case1 r h ih =>
    rw [sweepFrom_pos h.1 h.2]
    intro x hx
    rcases List.mem_cons.mp hx with h1 | h1
    · exact h1 ▸ h.2
    · exact ih x h1
  | case2 r h =>
    rw [sweepFrom]
    simp [h]

theorem sweepFrom_length {d : ℚ} (hd : 0 < d) (r : ℚ) :
    (sweepFrom d r).length = ⌈r / d⌉₊ := by
  induction r using (sweepFrom.induct d) with
  | case1 r h ih =>
    rw [sweepFrom_pos hd h.2, List.length_cons, ih]
    have hsub : (r - d) / d = r / d - 1 := by field_simp
    have hq : 0 < r / d := div_pos h.2 hd
    have h1 : (1 : ℤ) ≤ ⌈r / d⌉ := by
      have := Int.ceil_pos.mpr hq
      omega
    rw [hsub]
    rw [← Int.ceil_toNat, ← Int.ceil_toNat, Int.ceil_sub_one]
    omega
  | case2 r h =>
    rw [sweepFrom_nonpos (fun hr => h ⟨hd, hr⟩)]
    have hr : ¬ 0 < r := fun hr => h ⟨hd, hr⟩
    have : r / d ≤ 0 :=
      div_nonpos_of_nonpos_of_nonneg (le_of_not_lt hr) (le_of_lt hd)
    simp [Nat.ceil_eq_zero.mpr this]

theorem foldl_bind_none {f : PState → α → Option PState} :
    ∀ l : List α,
      List.foldl (fun acc a => acc.bind fun s => f s a)
        (none : Option PState) l = none := by
  intro l
  induction l with
  | nil => rfl
  | cons b l ihl => simpa using ihl

/-- Elementwise invariance of `PState.backup` lifted through `ofoldl`. -/
theorem ofoldl_backup {f : PState → α → Option PState}
    (hf : ∀ s a s', f s a = some s' → s'.backup = s.backup) :
    ∀ (l : List α) (st st' : PState), ofoldl f st l = some st' →
      st'.backup = st.backup := by
  intro l
  induction l with
  | nil =>
    intro st st' h
    simp [ofoldl] at h
    rw [h]
  | cons a l ih =>
    intro st st' h
    rw [ofoldl, List.foldl_cons] at h
    have h2 : List.foldl
        (fun acc a => acc.bind fun s => f s a) (f st a) l = some st' := h
    cases hfa : f st a with
    | none =>
      rw [hfa] at h2
      rw [foldl_bind_none l] at h2
      cases h2
    | some s1 =>
      rw [hfa] at h2
      have h' : ofoldl f s1 l = some st' := h2
      rw [ih s1 st' h', hf st a s1 hfa]

theorem prune_parameter_backup (pr : Pruner) (st : PState) (name : String)
    (r : ℚ) (res : PState × List ℕ × ℕ)
    (h : prune_parameter pr st name r false = some res) :
    res.1.backup = st.backup := by
  unfold prune_parameter at h
  cases ht : alookup st.scope name with
  | none => rw [ht] at h; cases h
  | some t =>
    rw [ht] at h
    simp at h
    rw [← h]

theorem prune_parameter_by_idx_backup (pr : Pruner) (st : PState)
    (name : String) (idxs : List ℕ) (axis : ℕ) (st' : PState)
    (h : prune_parameter_by_idx pr st name idxs axis false = some st') :
    st'.backup = st.backup := by
  unfold prune_parameter_by_idx at h
  cases ht : alookup st.scope name with
  | none => rw [ht] at h; cases h
  | some t =>
    rw [ht] at h
    simp at h
    rw [← h]

theorem restoreStep_backup (s : PState) (p : String × NTensor)
    (s' : PState) (h : restoreStep s p = some s') :
    s'.backup = s.backup := by
  unfold restoreStep at h
  cases ht : alookup s.scope p.1 with
  | none => rw [ht] at h; cases h
  | some t =>
    rw [ht] at h
    simp at h
    rw [← h]

theorem restoreAll_backup (st st' : PState) (h : restoreAll st = some st') :
    st'.backup = st.backup :=
  ofoldl_backup restoreStep_backup st.backup st st' h

theorem obind_some (a : β) (f : β → Option γ) : (some a).bind f = f a := rfl

theorem pruneParamInput_backup (pr : Pruner) (g : Graph) (idxs : List ℕ)
    (axis : ℕ) (s : PState) (pname : String) (s' : PState)
    (h : pruneParamInput pr g idxs axis false s pname = some s') :
    s'.backup = s.backup := by
  unfold pruneParamInput at h
  cases hv : g.getVar pname with
  | none =>
    simp only [hv] at h
    cases h
    rfl
  | some v =>
    simp only [hv] at h
    by_cases hp : v.isParam
    · rw [if_pos hp] at h
      exact prune_parameter_by_idx_backup pr s pname idxs axis s' h
    · rw [if_neg hp] at h
      cases h
      rfl

theorem addPreStep_backup (pr : Pruner) (g : Graph)
    (rec : PState → Oper → Option PState)
    (hrec : ∀ s p s', rec s p = some s' → s'.backup = s.backup)
    (prunedIdxs excludes : List ℕ) (s : PState) (preOp : Oper)
    (s' : PState)
    (h : addPreStep pr g rec prunedIdxs excludes false s preOp = some s') :
    s'.backup = s.backup := by
  unfold addPreStep at h
  by_cases hex : excludes.contains preOp.idx
  · rw [if_pos hex] at h
    cases h
    rfl
  · rw [if_neg hex] at h
    have hmid :
        ∀ m : Option PState,
          (∀ s1, m = some s1 → s1.backup = s.backup) →
          m.bind
              (fun s1 =>
                if preOp.type == "elementwise_add" then rec s1 preOp
                else some s1) = some s' →
          s'.backup = s.backup := by
      intro m hm hb
      cases m with
      | none => cases hb
      | some s1 =>
        have h1 := hm s1 rfl
        rw [obind_some] at hb
        by_cases ha : (preOp.type == "elementwise_add") = true
        · rw [if_pos ha] at hb
          rw [hrec s1 preOp s' hb, h1]
        · rw [if_neg ha] at hb
          cases hb
          exact h1
    refine hmid _ ?_ h
    intro s1 h1
    by_cases hc : (preOp.type == "conv2d") = true
    · rw [if_pos hc] at h1
      exact ofoldl_backup
        (fun a b c hd => pruneParamInput_backup pr g prunedIdxs 0 a b c hd)
        preOp.inputs s s1 h1
    · rw [if_neg hc] at h1
      cases h1
      rfl

theorem prune_add_op_backup (pr : Pruner) (g : Graph) :
    ∀ (fuel : ℕ) (st : PState) (op : Oper) (prunedIdxs excludes : List ℕ)
      (st' : PState),
      prune_add_op pr g fuel st op prunedIdxs excludes false = some st' →
      st'.backup = st.backup := by
  intro fuel
  induction fuel with
  | zero =>
    intro st op prunedIdxs excludes st' h
    cases h
  | succ fuel ih =>
    intro st op prunedIdxs excludes st' h
    rw [prune_add_op] at h
    cases hmid : ofoldl (pruneParamInput pr g prunedIdxs 0 false) st
        op.inputs with
    | none =>
      rw [hmid] at h
      cases h
    | some s1 =>
      rw [hmid, obind_some] at h
      have h1 : s1.backup = st.backup :=
        ofoldl_backup
          (fun a b c hd => pruneParamInput_backup pr g prunedIdxs 0 a b c hd)
          op.inputs st s1 hmid
      have h2 : st'.backup = s1.backup :=
        ofoldl_backup
          (fun a b c hd =>
            addPreStep_backup pr g _
              (fun s p s2 hh => ih s p prunedIdxs excludes s2 hh)
              prunedIdxs excludes a b c hd)
          (g.preOps op) s1 st' h
      rw [h2, h1]

theorem omap_some (a : β) (f : β → γ) : (some a).map f = some (f a) := rfl

theorem propStep_backup (pr : Pruner) (g : Graph) (related : List Oper)
    (paramName : String) (r : ℚ) (acc : PropAcc) (idx : ℕ) (op : Oper)
    (acc' : PropAcc)
    (h : propStep pr g related paramName r false acc idx op = some acc') :
    acc'.st.backup = acc.st.backup := by
  unfold propStep at h
  by_cases hc : (op.type == "conv2d") = true
  · rw [if_pos hc] at h
    by_cases hin : op.inputs.contains paramName
    · rw [if_pos hin] at h
      cases hp : prune_parameter pr acc.st paramName r false with
      | none => rw [hp] at h; cases h
      | some res =>
        rw [hp, omap_some] at h
        cases h
        exact prune_parameter_backup pr acc.st paramName r res hp
    · rw [if_neg hin] at h
      cases hcor : acc.correctedIdxs with
      | none => simp only [hcor] at h; exact Option.noConfusion h
      | some corrected =>
        simp only [hcor] at h
        cases hof : ofoldl (pruneParamInput pr g corrected 1 false) acc.st
            op.inputs with
        | none => rw [hof] at h; cases h
        | some s1 =>
          rw [hof, omap_some] at h
          cases h
          exact ofoldl_backup
            (fun a b c hd => pruneParamInput_backup pr g corrected 1 a b c
              hd)
            op.inputs acc.st s1 hof
  · rw [if_neg hc] at h
    by_cases ha : (op.type == "elementwise_add") = true
    · rw [if_pos ha] at h
      cases hprev : pyPrev related idx with
      | none => simp only [hprev] at h; exact Option.noConfusion h
      | some lastOp =>
        cases hcor : acc.correctedIdxs with
        | none => simp only [hprev, hcor] at h; exact Option.noConfusion h
        | some corrected =>
          simp only [hprev, hcor] at h
          cases hadd : prune_add_op pr g (g.ops.length + 1) acc.st op
              corrected [lastOp.idx] false with
          | none => rw [hadd] at h; cases h
          | some s1 =>
            rw [hadd, omap_some] at h
            cases h
            exact prune_add_op_backup pr g _ acc.st op corrected
              [lastOp.idx] s1 hadd
    · rw [if_neg ha] at h
      by_cases hm : (op.type == "mul") = true
      · rw [if_pos hm] at h
        cases hcor : acc.correctedIdxs with
        | none => simp only [hcor] at h; exact Option.noConfusion h
        | some corrected =>
          simp only [hcor] at h
          cases hfp : (op.inputs.foldl
              (fun pa n =>
                match g.getVar n with
                | some v =>
                  if v.isParam then (some v, pa.2) else (pa.1, some v)
                | none => (pa.1, none))
              ((none : Option GVar), (none : Option GVar))).1 with
          | none => simp only [hfp] at h; exact Option.noConfusion h
          | some fcParam =>
            cases hfi : (op.inputs.foldl
                (fun pa n =>
                  match g.getVar n with
                  | some v =>
                    if v.isParam then (some v, pa.2) else (pa.1, some v)
                  | none => (pa.1, none))
                ((none : Option GVar), (none : Option GVar))).2 with
            | none => simp only [hfp, hfi] at h; exact Option.noConfusion h
            | some fcInput =>
              simp only [hfp, hfi] at h
              cases hsh : (varShape g acc.st fcInput.name).bind
                  (fun s => s.get? 2) with
              | none => simp only [hsh] at h; exact Option.noConfusion h
              | some hh =>
                cases hsw : (varShape g acc.st fcInput.name).bind
                    (fun s => s.get? 3) with
                | none => simp only [hsh, hsw] at h; exact Option.noConfusion h
                | some ww =>
                  simp only [hsh, hsw] at h
                  cases hpi : prune_parameter_by_idx pr acc.st fcParam.name
                      ((corrected.map (fun i =>
                        (List.range (hh * ww)).map
                          (fun j => j + i * (hh * ww)))).flatten) 0
                      false with
                  | none => rw [hpi] at h; cases h
                  | some s1 =>
                    rw [hpi, omap_some] at h
                    cases h
                    exact prune_parameter_by_idx_backup pr acc.st
                      fcParam.name _ 0 s1 hpi
      · rw [if_neg hm] at h
        by_cases hcat : (op.type == "concat") = true
        · rw [if_pos hcat] at h
          cases hprev : pyPrev related idx with
          | none => simp only [hprev] at h; exact Option.noConfusion h
          | some lastOp =>
            cases hpi : acc.prunedIdxs with
            | none => simp only [hprev, hpi] at h; exact Option.noConfusion h
            | some prunedIdxs =>
              simp only [hprev, hpi] at h
              cases hci : (lastOp.outputs.foldl
                  (fun ci o =>
                    if op.inputs.contains o then
                      some (op.inputs.indexOf o)
                    else ci)
                  (none : Option ℕ)) with
              | none => simp only [hci] at h; exact Option.noConfusion h
              | some ci =>
                simp only [hci] at h
                cases hoff : ((List.range ci).foldl
                    (fun acc2 j =>
                      acc2.bind (fun a =>
                        (op.inputs.get? j).bind (fun n =>
                          (varShape g acc.st n).bind (fun s =>
                            (s.get? 1).map (fun c => a + c)))))
                    (some 0)) with
                | none => rw [hoff] at h; cases h
                | some offset =>
                  rw [hoff, omap_some] at h
                  cases h
                  rfl
        · rw [if_neg hcat] at h
          cases h
          rfl

theorem enumFold_backup (pr : Pruner) (g : Graph) (related : List Oper)
    (paramName : String) (r : ℚ) :
    ∀ (l : List (ℕ × Oper)) (a a' : PropAcc),
      l.foldl
          (fun acc iop =>
            acc.bind
              (fun x =>
                propStep pr g related paramName r false x iop.1 iop.2))
          (some a) = some a' →
      a'.st.backup = a.st.backup := by
  intro l
  induction l with
  | nil =>
    intro a a' h
    cases h
    rfl
  | cons x l ih =>
    intro a a' h
    rw [List.foldl_cons, obind_some] at h
    cases hx : propStep pr g related paramName r false a x.1 x.2 with
    | none =>
      rw [hx] at h
      have : ∀ m : List (ℕ × Oper), m.foldl
          (fun acc iop =>
            acc.bind
              (fun x =>
                propStep pr g related paramName r false x iop.1 iop.2))
          none = none := by
        intro m
        induction m with
        | nil => rfl
        | cons y m ihm => simpa using ihm
      rw [this l] at h
      cases h
    | some a1 =>
      rw [hx] at h
      rw [ih a1 a' h, propStep_backup pr g related paramName r a x.1 x.2 a1
        hx]

theorem propagateOver_backup (pr : Pruner) (g : Graph)
    (related : List Oper) (st : PState) (paramName : String) (r : ℚ)
    (st' : PState)
    (h : propagateOver pr g related paramName r false st = some st') :
    st'.backup = st.backup := by
  unfold propagateOver at h
  cases hf : related.enum.foldl
      (fun acc iop =>
        acc.bind
          (fun a => propStep pr g related paramName r false a iop.1 iop.2))
      (some ⟨st, none, none⟩) with
  | none => rw [hf] at h; cases h
  | some a =>
    rw [hf, omap_some] at h
    cases h
    exact enumFold_backup pr g related paramName r _ _ a hf

theorem pruning_related_op_backup (pr : Pruner) (g : Graph) (st : PState)
    (paramName : String) (r : ℚ) (st' : PState)
    (h : pruning_related_op pr g st paramName r false = some st') :
    st'.backup = st.backup :=
  propagateOver_backup pr g _ st paramName r st' h

theorem restoreFold_scope_other {n : String} :
    ∀ (l : List (String × NTensor)) (st st' : PState),
      (∀ p ∈ l, p.1 ≠ n) → ofoldl restoreStep st l = some st' →
      alookup st'.scope n = alookup st.scope n := by
  intro l
  induction l with
  | nil =>
    intro st st' _ h
    cases h
    rfl
  | cons q l ih =>
    intro st st' hne h
    rw [ofoldl, List.foldl_cons, obind_some] at h
    cases hq : restoreStep st q with
    | none =>
      rw [hq] at h
      rw [foldl_bind_none l] at h
      cases h
    | some s1 =>
      rw [hq] at h
      have h1 : ofoldl restoreStep s1 l = some st' := h
      rw [ih s1 st' (fun p hp => hne p (List.mem_cons_of_mem _ hp)) h1]
      unfold restoreStep at hq
      cases hs : alookup st.scope q.1 with
      | none => rw [hs] at hq; cases hq
      | some t =>
        rw [hs] at hq
        cases hq
        exact alookup_aupdate_ne _ _ (hne q (List.mem_cons_self _ _))

theorem restoreFold_restores :
    ∀ (l : List (String × NTensor)) (st st' : PState),
      (l.map (fun p => p.1)).Nodup → ofoldl restoreStep st l = some st' →
      ∀ p ∈ l, alookup st'.scope p.1 = some p.2 := by
  intro l
  induction l with
  | nil =>
    intro st st' _ _ p hp
    cases hp
  | cons q l ih =>
    intro st st' hnd h p hp
    rw [ofoldl, List.foldl_cons, obind_some] at h
    cases hq : restoreStep st q with
    | none =>
      rw [hq] at h
      rw [foldl_bind_none l] at h
      cases h
    | some s1 =>
      rw [hq] at h
      have h1 : ofoldl restoreStep s1 l = some st' := h
      rcases List.mem_cons.mp hp with rfl | hp'
      · have hne : ∀ x ∈ l, x.1 ≠ p.1 := by
          intro x hx hxn
          refine (List.nodup_cons.mp hnd).1 ?_
          show p.1 ∈ l.map (fun y => y.1)
          rw [← hxn]
          exact List.mem_map_of_mem (fun y => y.1) hx
        rw [restoreFold_scope_other l s1 st' hne h1]
        unfold restoreStep at hq
        cases hs : alookup st.scope p.1 with
        | none => rw [hs] at hq; cases hq
        | some t =>
          rw [hs] at hq
          cases hq
          exact alookup_aupdate_self _ _ _
      · exact ih s1 st' (List.nodup_cons.mp hnd).2 h1 p hp'

/-- The restore loop restores: when every backup key still names a scope
tensor and the backup keys are distinct, after `restoreAll` every backed-up
snapshot is back in the scope and the backup map itself is unchanged. -/
theorem restoreAll_restores (st st' : PState)
    (hnd : (st.backup.map (fun p => p.1)).Nodup)
    (h : restoreAll st = some st') :
    (∀ p ∈ st.backup, alookup st'.scope p.1 = some p.2) ∧
      st'.backup = st.backup :=
  ⟨restoreFold_restores st.backup st st' hnd h,
   restoreAll_backup st st' h⟩

theorem expand_length (P : List ℕ) (fm : ℕ) :
    ((P.map (fun i => (List.range fm).map
        (fun j => i * fm + j))).flatten).length = P.length * fm := by
  induction P with
  | nil => simp
  | cons a P ih =>
    rw [List.map_cons, List.flatten_cons, List.length_append, ih]
    simp [Nat.succ_mul, Nat.add_comm]

/-! The claim theorems. -/

/-- Claim C1 (code bug): the claim says that for every visit path containing
a `batch_norm` operation with an inherited corrected index set, all four
per-channel statistics (slots 2, 3, 0, 1) are pruned along axis 0.  The
source guards that branch with `elif type == "batch_norm":`, comparing the
Python *builtin* `type` against a string, which is never true, so the branch
is dead: on a concrete conv2d → batch_norm path the four statistics tensors
are left untouched and the shrink log records only the conv weight. -/
theorem C1_batch_norm_branch_never_fires :
    (pruning_related_op (constPruner [0]) bnGraph bnState "wp" (1/2)
        false).map
      (fun st =>
        (alookup st.scope "alpha", alookup st.scope "beta",
         alookup st.scope "mean", alookup st.scope "variance", st.log)) =
    some (some (NTensor.node [NTensor.leaf 10, NTensor.leaf 11]),
          some (NTensor.node [NTensor.leaf 20, NTensor.leaf 21]),
          some (NTensor.node [NTensor.leaf 30, NTensor.leaf 31]),
          some (NTensor.node [NTensor.leaf 40, NTensor.leaf 41]),
          [("wp", [0], 0)]) := rfl

/-- The sensitivity table on which claim C2 fails: parameter `p` has
zero-loss entries at ratios 1 and 1/2, and a lossy entry at 3/4; a working
selector picking the largest zero-loss ratio would select 1 for `p`. -/
def c2Table : List SensEntry :=
  [⟨"p", [1, 3/4, 1/2], [0, 5, 0]⟩]

/-- Claim C2 (code bug): the claim says the Ratio Selector picks the
largest zero-loss ratio.  The selector cannot select anything: processing
any table entry evaluates `izip(...)`, and `izip` is never imported by the
module, so the loop raises NameError on its first entry; even past the
loop, line 87 reads `self.target_ratio`, which `__init__` never assigns.
On the failing table the run raises (whether or not `target_ratio` were
assigned) instead of selecting ratio 1 for `p`. -/
theorem C2_selector_raises :
    resolveName "izip" = none ∧
    get_best_ratios_run none c2Table = none ∧
    get_best_ratios_run (some (2/5)) c2Table = none :=
  ⟨rfl, rfl, rfl⟩

/-- Claim C3 (confirmed): in a conv2d → concat → conv2d chain where the
pruned conv feeds concat slot 2, the index set used for the downstream
conv2d's axis-1 pruning is the original pruned set shifted by the sum of the
channel counts (shape dimension 1) of the concat inputs in slots 0 and 1. -/
theorem C3_concat_offset_correction
    (calF : String → NTensor → ℚ → List ℕ × ℕ) (chA chB : ℕ) (P : List ℕ)
    (wpT w2T : NTensor) (r : ℚ) (hcal : calF "wp" wpT r = (P, 0)) :
    (pruning_related_op (mkPruner calF) (concatGraph chA chB)
        (concatState wpT w2T) "wp" r false).map (fun st => st.log) =
      some [("wp", P, 0), ("w2", P.map (fun x => x + (chA + chB)), 1)] := by
  have hrel : forward_search_related_op (concatGraph chA chB) "wp" =
      [⟨0, "conv2d", ["x", "wp"], ["cP"]⟩,
       ⟨1, "concat", ["cA", "cB", "cP"], ["cc"]⟩,
       ⟨2, "conv2d", ["cc", "w2"], ["y"]⟩] := rfl
  unfold pruning_related_op propagateOver
  rw [hrel]
  simp [propStep, prune_parameter, prune_parameter_by_idx, pruneParamInput,
    alookup, aupdate, mkPruner, hcal, pyPrev, varShape, Graph.getVar,
    concatGraph, concatState, ofoldl, List.enum, List.enumFrom,
    show List.range 2 = [0, 1] from rfl, Nat.add_assoc]

/-- Claim C3 witness: the theorem at a concrete pruner, channel counts 3 and
4, and pruned set `[0, 1]`. -/
theorem C3_witness :
    (pruning_related_op (mkPruner (fun _ _ _ => ([0, 1], 0)))
        (concatGraph 3 4) (concatState (mat [[1], [2]])
          (mat [[1], [2], [3]])) "wp" (1/2) false).map (fun st => st.log) =
      some [("wp", [0, 1], 0),
            ("w2", [0, 1].map (fun x => x + (3 + 4)), 1)] :=
  C3_concat_offset_correction (fun _ _ _ => ([0, 1], 0)) 3 4 [0, 1]
    (mat [[1], [2]]) (mat [[1], [2], [3]]) (1/2) rfl

/-- Claim C4 (confirmed): in a conv2d → mul chain whose activation has
feature-map height `h` and width `w`, the channel index set `P` is expanded
to the contiguous flattened positions `i*(h*w) .. i*(h*w)+h*w-1` for each
channel `i` in `P` — exactly `h*w` positions per channel — and the FC weight
is pruned along axis 0 with that expanded set. -/
theorem C4_fc_flatten_expansion
    (calF : String → NTensor → ℚ → List ℕ × ℕ) (ch h w : ℕ) (P : List ℕ)
    (wpT wfcT : NTensor) (r : ℚ) (hcal : calF "wp" wpT r = (P, 0)) :
    (pruning_related_op (mkPruner calF) (fcGraph ch h w)
        (fcState wpT wfcT) "wp" r false).map (fun st => st.log) =
      some [("wp", P, 0),
            ("wfc",
             (P.map (fun i => (List.range (h * w)).map
               (fun j => i * (h * w) + j))).flatten, 0)] ∧
    ((P.map (fun i => (List.range (h * w)).map
        (fun j => i * (h * w) + j))).flatten).length = P.length * (h * w) := by
  constructor
  · have hrel : forward_search_related_op (fcGraph ch h w) "wp" =
        [⟨0, "conv2d", ["x", "wp"], ["c"]⟩,
         ⟨1, "mul", ["c", "wfc"], ["y"]⟩] := rfl
    unfold pruning_related_op propagateOver
    rw [hrel]
    simp [propStep, prune_parameter, prune_parameter_by_idx,
      pruneParamInput, alookup, aupdate, mkPruner, hcal, pyPrev, varShape,
      Graph.getVar, fcGraph, fcState, ofoldl, List.enum, List.enumFrom,
      Nat.add_comm]
  · exact expand_length P (h * w)

/-- Claim C4 witness: the theorem at a concrete pruner with channels
`[0, 2]` and a 2×2 feature map. -/
theorem C4_witness :
    (pruning_related_op (mkPruner (fun _ _ _ => ([0, 2], 0)))
        (fcGraph 3 2 2) (fcState (mat [[1], [2], [3]]) (mat [[1], [2]]))
        "wp" (1/2) false).map (fun st => st.log) =
      some [("wp", [0, 2], 0),
            ("wfc",
             ([0, 2].map (fun i => (List.range (2 * 2)).map
               (fun j => i * (2 * 2) + j))).flatten, 0)] ∧
    (([0, 2].map (fun i => (List.range (2 * 2)).map
        (fun j => i * (2 * 2) + j))).flatten).length =
      [0, 2].length * (2 * 2) :=
  C4_fc_flatten_expansion (fun _ _ _ => ([0, 2], 0)) 3 2 2 [0, 2]
    (mat [[1], [2], [3]]) (mat [[1], [2]]) (1/2) rfl

/-- Claim C5 (confirmed): in a conv2d → elementwise_add → conv2d chain,
pruning the first conv weight by index set `P` on its output channels
shrinks the bias along axis 0 by `P`, shrinks the second conv weight along
axis 1 by `P`, and leaves the second conv weight's dimension 0 (its output
channel count) unchanged. -/
theorem C5_add_chain_pruning
    (calF : String → NTensor → ℚ → List ℕ × ℕ) (P : List ℕ)
    (w1T bT : NTensor) (ts : List NTensor) (r : ℚ)
    (hcal : calF "w1" w1T r = (P, 0)) :
    (pruning_related_op (mkPruner calF) addGraph
        (addState w1T bT (NTensor.node ts)) "w1" r false).map
      (fun st =>
        (alookup st.scope "b", alookup st.scope "w2",
         (alookup st.shapes "w2").map (fun s => s.head?))) =
      some (some (npDelete P 0 bT), some (npDelete P 1 (NTensor.node ts)),
            some (tshape (NTensor.node ts)).head?) := by
  have hrel : forward_search_related_op addGraph "w1" =
      [⟨0, "conv2d", ["x", "w1"], ["c1"]⟩,
       ⟨1, "elementwise_add", ["c1", "b"], ["c2"]⟩,
       ⟨2, "conv2d", ["c2", "w2"], ["y"]⟩] := rfl
  unfold pruning_related_op propagateOver
  rw [hrel]
  simp [propStep, prune_parameter, prune_parameter_by_idx, pruneParamInput,
    alookup, aupdate, mkPruner, hcal, pyPrev, varShape, Graph.getVar,
    Graph.preOps, addGraph, addState, ofoldl, List.enum, List.enumFrom,
    prune_add_op, addPreStep]
  cases ts with
  | nil => simp [npDelete, npDeleteList, tshape]
  | cons t ts' =>
    simp [npDelete, npDeleteList, tshape, npDeleteList_length]

/-- Claim C5 witness: the theorem at a concrete pruner with pruned set
`[1]` and concrete tensors. -/
theorem C5_witness :
    (pruning_related_op (mkPruner (fun _ _ _ => ([1], 0))) addGraph
        (addState (mat [[1, 2], [3, 4]])
          (NTensor.node [NTensor.leaf 7, NTensor.leaf 8])
          (NTensor.node [NTensor.node [NTensor.leaf 1, NTensor.leaf 2],
            NTensor.node [NTensor.leaf 3, NTensor.leaf 4],
            NTensor.node [NTensor.leaf 5, NTensor.leaf 6]])) "w1" (1/2)
        false).map
      (fun st =>
        (alookup st.scope "b", alookup st.scope "w2",
         (alookup st.shapes "w2").map (fun s => s.head?))) =
      some
        (some (npDelete [1] 0
          (NTensor.node [NTensor.leaf 7, NTensor.leaf 8])),
         some (npDelete [1] 1
          (NTensor.node [NTensor.node [NTensor.leaf 1, NTensor.leaf 2],
            NTensor.node [NTensor.leaf 3, NTensor.leaf 4],
            NTensor.node [NTensor.leaf 5, NTensor.leaf 6]])),
         some (tshape
          (NTensor.node [NTensor.node [NTensor.leaf 1, NTensor.leaf 2],
            NTensor.node [NTensor.leaf 3, NTensor.leaf 4],
            NTensor.node [NTensor.leaf 5, NTensor.leaf 6]])).head?) :=
  C5_add_chain_pruning (fun _ _ _ => ([1], 0)) [1] (mat [[1, 2], [3, 4]])
    (NTensor.node [NTensor.leaf 7, NTensor.leaf 8])
    [NTensor.node [NTensor.leaf 1, NTensor.leaf 2],
     NTensor.node [NTensor.leaf 3, NTensor.leaf 4],
     NTensor.node [NTensor.leaf 5, NTensor.leaf 6]] (1/2) rfl

/-- Claim C6 counterexample: lazily pruning a 2×1 conv weight with index set
`[0]` and then restoring from backup brings the stored values back, but the
Parameter's shape descriptor still holds the pruned shape `[1, 1]`, not the
original `[2, 1]` — so prune-then-restore does not reproduce the shape
descriptor as the claim states. -/
theorem C6_counterexample_descriptor_not_restored :
    ((prune_parameter (constPruner [0]) (convState (mat [[1], [2]])) "w"
          (1/2) true).bind (fun res => restoreAll res.1)).map
        (fun st => alookup st.shapes "w") = some (some [1, 1]) ∧
    tshape (mat [[1], [2]]) = [2, 1] ∧
    ([1, 1] : List ℕ) ≠ [2, 1] :=
  ⟨rfl, rfl, by decide⟩

/-- Claim C6 (amended): for any pruner index policy, lazily pruning a conv
weight and restoring every backup entry reproduces the exact original tensor
in storage (values and buffer shape), while the Parameter's shape descriptor
keeps the pruned shape — restoration does not reset it. -/
theorem C6_lazy_restore_values_only
    (calF : String → NTensor → ℚ → List ℕ × ℕ) (t : NTensor) (P : List ℕ)
    (r : ℚ) (hcal : calF "w" t r = (P, 0)) :
    ((prune_parameter (mkPruner calF) (convState t) "w" r true).bind
        (fun res => restoreAll res.1)).map
      (fun st => (alookup st.scope "w", alookup st.shapes "w")) =
      some (some t, some (tshape (npDelete P 0 t))) := by
  simp [prune_parameter, convState, alookup, aupdate, mkPruner, hcal,
    restoreAll, restoreStep, ofoldl]

/-- Claim C6 witness: the amended theorem at the concrete 2×1 weight and
index set `[0]`. -/
theorem C6_witness :
    ((prune_parameter (mkPruner (fun _ _ _ => ([0], 0)))
        (convState (mat [[1], [2]])) "w" (1/2) true).bind
        (fun res => restoreAll res.1)).map
      (fun st => (alookup st.scope "w", alookup st.shapes "w")) =
      some (some (mat [[1], [2]]),
            some (tshape (npDelete [0] 0 (mat [[1], [2]])))) :=
  C6_lazy_restore_values_only (fun _ _ _ => ([0], 0)) (mat [[1], [2]]) [0]
    (1/2) rfl

/-- Claim C7 counterexample: a full lazy sensitivity trial (lazy prune, then
the restore loop) on a single conv weight ends with the backup map still
holding the snapshot — it is not drained back to empty, so the entry
survives into the next trial. -/
theorem C7_counterexample_backup_not_drained :
    (sensitivityTrial (constPruner [0]) convGraph
        (convState (mat [[1], [2]])) "w" (1/2)).map (fun st => st.backup) =
      some [("w", mat [[1], [2]])] ∧
    ([("w", mat [[1], [2]])] : List (String × NTensor)) ≠ [] :=
  ⟨rfl, by simp⟩

/-- Claim C7 (amended): backup entries are created only during lazy pruning
— a non-lazy propagation leaves the backup map unchanged — and the restore
loop writes every backed-up snapshot back into the scope but does not
discard the entries: the backup map itself is unchanged by restoration. -/
theorem C7_backup_lazy_only_restored_not_discarded :
    (∀ (pr : Pruner) (g : Graph) (st : PState) (n : String) (r : ℚ)
        (st' : PState),
        pruning_related_op pr g st n r false = some st' →
        st'.backup = st.backup) ∧
    (∀ st st' : PState, restoreAll st = some st' →
        st'.backup = st.backup ∧
        ((st.backup.map (fun p => p.1)).Nodup →
          ∀ p ∈ st.backup, alookup st'.scope p.1 = some p.2)) :=
  ⟨pruning_related_op_backup,
   fun st st' h =>
     ⟨restoreAll_backup st st' h,
      fun hnd => restoreFold_restores st.backup st st' hnd h⟩⟩

/-- Claim C7 witness: the first part of the theorem applied to a concrete
non-lazy propagation, whose result state has an empty backup map. -/
theorem C7_witness :
    PState.backup
        { scope := [("w", NTensor.node [NTensor.node [NTensor.leaf 2]])],
          shapes := [("w", [1, 1])], backup := [],
          log := [("w", [0], 0)] } =
      (convState (mat [[1], [2]])).backup :=
  C7_backup_lazy_only_restored_not_discarded.1 (constPruner [0]) convGraph
    (convState (mat [[1], [2]])) "w" (1/2) _ rfl

/-- The all-lossy sensitivity table for claim C8: no parameter has a
zero-loss entry. -/
def c8Table : List SensEntry :=
  [⟨"p", [1, 1/2], [1, 2]⟩]

/-- Claim C8 (code bug): the claim says the selector fails with an
explicitly raised error when no parameter has a zero-loss entry.  The source
has no raise at all: on an all-lossy table it silently builds an empty
selection and divides by the zero ratio sum, returning empty name and ratio
lists (in Python the expression additionally trips over the unimported
`izip` and the never-assigned `self.target_ratio`, also not an explicit
selection error). -/
theorem C8_no_explicit_error_on_empty_selection :
    noLossRatios c8Table = [] ∧
    get_best_ratios (2/5) c8Table = ([], []) :=
  ⟨rfl, rfl⟩

/-- Claim C9 counterexample: under the source's binary64 float arithmetic
(the loop subtracts Python floats), the sweep at the documented default
`delta_rate = 0.2` tries six ratios — `1.0, 0.8, 0.6000000000000001,
0.4000000000000001, 0.20000000000000007, 2^-54` — not `ceil(1/0.2) = 5` as
the claim's general count clause states.  The first conjunct pins the grid
value of the stored literal to the well-known binary64 significand of
0.2. -/
theorem C9_counterexample_float_count :
    fpFifth = ((3602879701896397 * 2 ^ 146 : ℕ) : ℤ) ∧
    (floatSweepZ fpFifth 10 (fpScale : ℤ)).length = 6 ∧
    ⌈(1 : ℚ) / (1/5)⌉₊ = 5 ∧ (6 : ℕ) ≠ 5 :=
  ⟨by decide, by decide, by norm_num, by decide⟩

/-- Claim C9 (amended): the sweep tries ratios from 1 decreasing by
`delta_rate` while the ratio stays strictly positive, so with
`delta_rate = 0.25` (exact in binary64) the tried sequence is exactly
`[1.0, 0.75, 0.5, 0.25]`; every tried ratio is strictly positive, so ratio
0 is never tried; the number of tried ratios equals `ceil(1/delta_rate)`
under exact subtraction — but under the program's binary64 subtraction
rounding can add spurious trials, as the six trials at the default
`delta_rate = 0.2` show. -/
theorem C9_sweep_amended :
    (floatSweepZ fpQuarter 10 (fpScale : ℤ)).map
        (fun k => (k : ℚ) / ((fpScale : ℕ) : ℚ)) = [1, 3/4, 1/2, 1/4] ∧
    (∀ (d r : ℤ) (fuel : ℕ), ∀ x ∈ floatSweepZ d fuel r, 0 < x) ∧
    (∀ d : ℚ, 0 < d → (sweepRatios d).length = ⌈(1 : ℚ) / d⌉₊) ∧
    (floatSweepZ fpFifth 10 (fpScale : ℤ)).length = 6 := by
  refine ⟨?_, ?_, ?_, by decide⟩
  · have hz : floatSweepZ fpQuarter 10 (fpScale : ℤ) =
        [((2 ^ 200 : ℕ) : ℤ), ((3 * 2 ^ 198 : ℕ) : ℤ),
         ((2 ^ 199 : ℕ) : ℤ), ((2 ^ 198 : ℕ) : ℤ)] := by decide
    rw [hz]
    simp only [List.map_cons, List.map_nil, fpScale]
    push_cast
    norm_num
  · intro d r fuel
    induction fuel generalizing r with
    | zero =>
      intro x hx
      cases hx
    | succ fuel ih =>
      intro x hx
      rw [floatSweepZ] at hx
      by_cases hr : 0 < r
      · rw [if_pos hr] at hx
        rcases List.mem_cons.mp hx with rfl | hx'
        · exact hr
        · exact ih _ x hx'
      · rw [if_neg hr] at hx
        cases hx
  · intro d hd
    rw [sweepRatios, sweepFrom_length hd 1]

/-- Claim C9 witness: the exact-arithmetic count clause of the amended
theorem at the concrete step 1/4. -/
theorem C9_amended_witness :
    0 < (1/4 : ℚ) ∧
    (sweepRatios (1/4)).length = ⌈(1 : ℚ) / (1/4)⌉₊ :=
  ⟨by norm_num, C9_sweep_amended.2.2.1 (1/4) (by norm_num)⟩

/-- Claim C10 (confirmed): `PruneStrategy.on_batch_end` applies the
mask-multiply-and-assign program to every parameter exactly when
`start_epoch ≤ epoch < end_epoch` and `batch_id % frequency = 0`, and
changes nothing otherwise (frequency positive, as a zero frequency raises in
Python). -/
theorem C10_trigger_iff (mp : MaskPruner) (freq sE eE ep b : ℕ)
    (params : List (String × NTensor)) (hf : 0 < freq) :
    on_batch_end mp freq sE eE ep b params =
      if sE ≤ ep ∧ ep < eE ∧ b % freq = 0 then
        params.map (fun p => (p.1, tmul p.2 (mp.mask p.1 p.2)))
      else params := by
  unfold on_batch_end triger
  by_cases h1 : b % freq = 0 <;> by_cases h2 : sE ≤ ep <;>
    by_cases h3 : ep < eE <;> simp [h1, h2, h3]

/-- The identity mask pruner used by the C10 witness. -/
def idMask : MaskPruner := ⟨fun _ t => t⟩

/-- Claim C10 witness: the theorem at frequency 1, epoch 0 of window
[0, 10), batch 0, on a one-parameter scope. -/
theorem C10_witness :
    0 < 1 ∧
    on_batch_end idMask 1 0 10 0 0 [("w", NTensor.leaf 2)] =
      if 0 ≤ 0 ∧ 0 < 10 ∧ 0 % 1 = 0 then
        [("w", NTensor.leaf 2)].map
          (fun p => (p.1, tmul p.2 (idMask.mask p.1 p.2)))
      else [("w", NTensor.leaf 2)] :=
  ⟨by norm_num, C10_trigger_iff idMask 1 0 10 0 0 _ (by norm_num)⟩

end PruneSpec
